import Mathlib

/-!
Shallow embedding of `src/blog-crud.js`: the browser-local blog-post store
with seed-from-markup, render, delete-with-undo and restore semantics.

Modelling conventions:
* JS strings are lists of characters (`Str`).
* The module-level mutable state (`blogs`, `recentlyDeleted`, the persisted
  value under `STORAGE_KEY`, the undo box visibility and the pending
  `setTimeout` handle) is gathered in `CrudState`; `localStorage.setItem`
  (the `save()` helper) is modelled by updating the `stored` field.
* The ambient clock (`Date.now()`) is passed explicitly as an `Int`.
* DOM lookups that only gate behaviour (`byId('undoMessage')`) are passed in
  as an `Env`; the seed-time DOM is passed as a list of `Card` values.
* The 6-second expiry timer is modelled by the `undoTimeout` flag (armed /
  not armed) together with `expireStep`, the firing of the armed callback.
-/

namespace BlogCrud

/-- JS strings, modelled as lists of characters. -/
abbrev Str := List Char

/-- One post record, as built by `initializeFromDOM` and `addBlog`. -/
structure Blog where
  id : Int
  title : Str
  image : Str
  content : Str
  detailUrl : Str
deriving DecidableEq, Repr

/-- The `recentlyDeleted` slot contents: `{ blog, index }` (blog-crud.js line 125). -/
structure Pending where
  blog : Blog
  index : Int
deriving DecidableEq, Repr

/-- The module-level mutable state of blog-crud.js. `stored` is the value
currently persisted under `STORAGE_KEY` (`none` = key absent/unparsable);
`undoVisible` is the display state of the `#undoMessage` box; `undoTimeout`
records whether the 6-second expiry callback is armed. -/
structure CrudState where
  blogs : List Blog
  recentlyDeleted : Option Pending
  stored : Option (List Blog)
  undoVisible : Bool
  undoTimeout : Bool
deriving DecidableEq, Repr

/-- The DOM facts the operations consult: whether `byId('undoMessage')`
finds an element. -/
structure Env where
  hasUndoBox : Bool
deriving DecidableEq, Repr

/-- An anchor inside a static card: its visible text, whether its class list
contains `read-more`, and its `href` attribute (`none` when absent). -/
structure Anchor where
  text : Str
  readMore : Bool
  href : Option Str
deriving DecidableEq, Repr

/-- A pre-rendered `.blog-card` element at seed time: the `src` of its first
`img` (when an image element is present), the text of its first `h1`-`h4`,
the text of its first `p`, and its anchors in document order. -/
structure Card where
  img : Option Str
  heading : Option Str
  para : Option Str
  anchors : List Anchor
deriving DecidableEq, Repr

/-- Whitespace for JS `String.prototype.trim`. -/
def isWs (c : Char) : Bool :=
  c = ' ' || c = '\t' || c = '\n' || c = '\r'

/-- JS `s.trim()`. -/
def jsTrim (s : Str) : Str :=
  ((s.dropWhile isWs).reverse.dropWhile isWs).reverse

/-- JS `s.toLowerCase()`. -/
def lowerStr (s : Str) : Str := s.map Char.toLower

/-- Does the pattern occur at the head of the string? (helper for `includes`). -/
def startMatch : Str → Str → Bool
  | [], _ => true
  | _ :: _, [] => false
  | p :: ps, h :: hs => p = h && startMatch ps hs

/-- JS `hay.includes(pat)`. -/
def hasSubstr (pat : Str) : Str → Bool
  | [] => startMatch pat []
  | c :: t => startMatch pat (c :: t) || hasSubstr pat t

/-- The detail-link loop of `initializeFromDOM` (blog-crud.js lines 52-60):
first anchor whose lower-cased text contains "read" or which carries the
`read-more` class; its `href` (or `''` when the attribute is null). -/
def findDetail : List Anchor → Str
  | [] => []
  | a :: rest =>
    if hasSubstr ("read".toList) (lowerStr a.text) || a.readMore then a.href.getD []
    else findDetail rest

/-- Decimal rendering of a natural number, for the `Post ${i+1}` fallback. -/
def natToStr (n : Nat) : Str := (toString n).toList

/-- Decimal rendering of an integer, for `single.html?id=${blog.id}`. -/
def intToStr (n : Int) : Str := (toString n).toList

/-- One static card turned into a record (blog-crud.js lines 38-69):
`id = Date.now() + i`, title from the first heading (falling back to
`Post ${i+1}`), image from the first img, content from the first paragraph,
detail url from the anchor scan. -/
def extractCard (now : Int) (i : Nat) (card : Card) : Blog :=
  { id := now + i
    title :=
      match card.heading with
      | some t => jsTrim t
      | none => "Post ".toList ++ natToStr (i + 1)
    image := card.img.getD []
    content :=
      match card.para with
      | some p => jsTrim p
      | none => []
    detailUrl := findDetail card.anchors }

/-- `staticCards.map((card, i) => ...)` with its running 0-based position. -/
def extractCards (now : Int) : Nat → List Card → List Blog
  | _, [] => []
  | i, c :: cs => extractCard now i c :: extractCards now (i + 1) cs

/-- The part of `initializeFromDOM` after the stored-value check
(blog-crud.js lines 31-72): no `#blogList` container leaves `blogs = []`
without saving; a container with no `.blog-card`s sets `blogs = []` and
saves; otherwise the cards are extracted and saved. Returns the new
in-memory list and the persisted value afterwards. -/
def extractBranch (now : Int) (stored : Option (List Blog))
    (container : Option (List Card)) : List Blog × Option (List Blog) :=
  match container with
  | none => ([], stored)
  | some [] => ([], some [])
  | some cards =>
    let newBlogs := extractCards now 0 cards
    (newBlogs, some newBlogs)

/-- `initializeFromDOM` (blog-crud.js lines 24-73). The stored value is what
`load()` returned (`none` = key missing or unparsable). The guard on line 26
is `stored && Array.isArray(stored) && stored.length > 0`: only a non-empty
stored array is used verbatim; anything else falls through to the
extraction branch. -/
def initializeFromDOM (now : Int) (stored : Option (List Blog))
    (container : Option (List Card)) : List Blog × Option (List Blog) :=
  match stored with
  | some l =>
    if 0 < l.length then (l, stored)
    else extractBranch now stored container
  | none => extractBranch now stored container

/-- The page-ready state: `initializeFromDOM` has run, nothing is pending,
the undo box is hidden, no timer is armed. -/
def initState (now : Int) (stored : Option (List Blog))
    (container : Option (List Card)) : CrudState :=
  let r := initializeFromDOM now stored container
  { blogs := r.1
    recentlyDeleted := none
    stored := r.2
    undoVisible := false
    undoTimeout := false }

/-- `showUndo` (blog-crud.js lines 134-151): returns at once when
`#undoMessage` is absent; otherwise shows the box and (re)arms the
6-second expiry timer (any previous timer is cleared first, so the net
effect on the handle is: armed). -/
def showUndo (env : Env) (s : CrudState) : CrudState :=
  if !env.hasUndoBox then s
  else { s with undoVisible := true, undoTimeout := true }

/-- `deleteBlog` (blog-crud.js lines 123-130) for integer indices: range
guard, capture `{ blog: blogs[index], index }` into `recentlyDeleted`,
`splice(index, 1)`, `save()`, re-render, `showUndo`. -/
def deleteBlog (env : Env) (index : Int) (s : CrudState) : CrudState :=
  if h : index < 0 ∨ (s.blogs.length : Int) ≤ index then s
  else
    have hx : index.toNat < s.blogs.length := by omega
    let deleted := s.blogs.get ⟨index.toNat, hx⟩
    let blogs' := s.blogs.eraseIdx index.toNat
    showUndo env
      { s with
        recentlyDeleted := some { blog := deleted, index := index }
        blogs := blogs'
        stored := some blogs' }

/-- The insertion position of `undoDelete`: `Math.min(index, blogs.length)`
followed by the start clamp of `Array.prototype.splice` (a negative start
counts from the end, bottoming out at 0; a large start is clamped to the
length). -/
def restoreStart (index : Int) (len : Nat) : Nat :=
  let idx : Int := min index (len : Int)
  if idx < 0 then ((len : Int) + idx).toNat else min idx.toNat len

/-- `undoDelete` (blog-crud.js lines 154-164): no-op when nothing is
pending; otherwise reinsert the captured record at
`Math.min(recentlyDeleted.index, blogs.length)`, `save()`, clear the slot,
hide the undo box (when present), re-render, cancel the timer. -/
def undoDelete (env : Env) (s : CrudState) : CrudState :=
  match s.recentlyDeleted with
  | none => s
  | some rd =>
    let blogs' := s.blogs.insertIdx (restoreStart rd.index s.blogs.length) rd.blog
    { s with
      blogs := blogs'
      stored := some blogs'
      recentlyDeleted := none
      undoVisible := if env.hasUndoBox then false else s.undoVisible
      undoTimeout := false }

/-- The fields object passed to `addBlog`; `none` models an absent
(undefined) property, triggering the destructuring defaults. -/
structure AddFields where
  title : Option Str
  image : Option Str
  content : Option Str
  detailUrl : Option Str
deriving DecidableEq, Repr

/-- JS `a || b` on strings: the empty string is the only falsy string. -/
def jsOr (s fallback : Str) : Str := if s = [] then fallback else s

/-- `addBlog` (blog-crud.js lines 167-179): a fresh record with
`id = Date.now()`, `title || 'Untitled'`, empty-string defaults for the
rest, `unshift` to the front, `save()`, re-render. -/
def addBlog (now : Int) (f : AddFields) (s : CrudState) : CrudState :=
  let newBlog : Blog :=
    { id := now
      title := jsOr (f.title.getD []) ("Untitled".toList)
      image := jsOr (f.image.getD []) []
      content := jsOr (f.content.getD []) []
      detailUrl := jsOr (f.detailUrl.getD []) [] }
  let blogs' := newBlog :: s.blogs
  { s with blogs := blogs', stored := some blogs' }

/-- The firing of the armed expiry callback (blog-crud.js lines 146-150):
hide the box, clear the pending slot, forget the handle. A callback that
was never armed (or was cancelled) cannot fire, so the step is the
identity when `undoTimeout` is not armed. -/
def expireStep (s : CrudState) : CrudState :=
  if s.undoTimeout then
    { s with undoVisible := false, recentlyDeleted := none, undoTimeout := false }
  else s

/-- `truncate` (blog-crud.js lines 182-185). -/
def truncate (s : Str) (n : Nat) : Str :=
  if n < s.length then s.take n ++ "...".toList else s

/-- One global single-character replacement, the meaning of
`String.prototype.replace` with a single-character global regex. -/
def replaceAllChar (c : Char) (rep : Str) : Str → Str
  | [] => []
  | x :: xs => (if x = c then rep else [x]) ++ replaceAllChar c rep xs

/-- `escapeHtml` (blog-crud.js lines 188-195): empty input short-circuits;
otherwise `&` then `"` then `<` then `>` are globally replaced, in that
order. -/
def escapeHtml (s : Str) : Str :=
  if s = [] then []
  else
    replaceAllChar '>' ("&gt;".toList)
      (replaceAllChar '<' ("&lt;".toList)
        (replaceAllChar '"' ("&quot;".toList)
          (replaceAllChar '&' ("&amp;".toList) s)))

/-- The inner HTML of one rendered card (blog-crud.js lines 84-103),
whitespace-normalised; every interpolation site goes through `escapeHtml`
exactly as in the source. -/
def renderCard (blog : Blog) (idx : Nat) : Str :=
  let imageHtml :=
    if blog.image = [] then []
    else
      "<div class=\"card-image\"><img src=\"".toList ++ escapeHtml blog.image ++
        "\" alt=\"".toList ++ escapeHtml blog.title ++ "\"></div>".toList
  let titleHtml :=
    "<h3 class=\"blog-title\">".toList ++ escapeHtml blog.title ++ "</h3>".toList
  let excerptHtml :=
    "<p class=\"blog-excerpt\">".toList ++ escapeHtml (truncate blog.content 320) ++
      "</p>".toList
  let readHref :=
    if blog.detailUrl ≠ [] ∧ jsTrim blog.detailUrl ≠ [] then blog.detailUrl
    else "single.html?id=".toList ++ intToStr blog.id
  let footerHtml :=
    "<div class=\"card-buttons\"><a class=\"read-more btn\" href=\"".toList ++
      escapeHtml readHref ++ "\">Read More</a><button class=\"delete-btn btn\" data-index=\"".toList ++
      natToStr idx ++ "\">Delete</button></div>".toList
  imageHtml ++ "<div class=\"card-body\">".toList ++ titleHtml ++ excerptHtml ++
    footerHtml ++ "</div>".toList

/-- The per-character effect of the four chained replacements of
`escapeHtml` (proved equal to it in `escapeHtml_eq_concatMap`). -/
def escChar (c : Char) : Str :=
  if c = '&' then "&amp;".toList
  else if c = '"' then "&quot;".toList
  else if c = '<' then "&lt;".toList
  else if c = '>' then "&gt;".toList
  else [c]

/-- Concatenation of a character-to-string function over a string. -/
def concatMapStr (f : Char → Str) : Str → Str
  | [] => []
  | c :: cs => f c ++ concatMapStr f cs

/-- Every `&` in the string is immediately followed by `amp;`, `quot;`,
`lt;` or `gt;`, i.e. occurs only as the start of one of the four entities
`escapeHtml` emits. -/
def ampsOk : Str → Bool
  | [] => true
  | c :: rest =>
    if c = '&' then
      (startMatch ("amp;".toList) rest || startMatch ("quot;".toList) rest ||
        startMatch ("lt;".toList) rest || startMatch ("gt;".toList) rest) && ampsOk rest
    else ampsOk rest

/-- A JS number as it reaches `deleteBlog` from
`Number(btn.getAttribute('data-index'))`: an integer or `NaN`. -/
inductive JNum where
  | num (val : Int)
  | nan
deriving DecidableEq, Repr

/-- JS `<`: every comparison with NaN is false. -/
def jLt : JNum → JNum → Bool
  | .num a, .num b => a < b
  | _, _ => false

/-- JS `>=`: every comparison with NaN is false. -/
def jGe : JNum → JNum → Bool
  | .num a, .num b => b ≤ a
  | _, _ => false

/-- `ToIntegerOrInfinity` as used by `Array.prototype.splice`: NaN becomes 0. -/
def jToInteger : JNum → Int
  | .num v => v
  | .nan => 0

/-- The start position `splice(index, 1)` actually uses: `ToInteger`, then
negative values count from the end (bottoming at 0), large values clamp to
the length. -/
def jsSpliceStart (i : JNum) (len : Nat) : Nat :=
  let k := jToInteger i
  if k < 0 then ((len : Int) + k).toNat else min k.toNat len

/-- JS `blogs[index]`: `undefined` (`none`) for NaN or out-of-range. -/
def jsElem (l : List Blog) : JNum → Option Blog
  | .num v => if h : 0 ≤ v ∧ v.toNat < l.length then some (l.get ⟨v.toNat, h.2⟩) else none
  | .nan => none

/-- `deleteBlog` (blog-crud.js lines 123-130) over a general JS numeric
index, restricted to the store and the pending slot (which may now hold an
`undefined` record): the guard uses JS comparisons, the capture uses JS
indexing, the removal uses the splice start clamp. -/
def deleteBlogNum (index : JNum) (blogs : List Blog)
    (recentlyDeleted : Option (Option Blog × JNum)) :
    List Blog × Option (Option Blog × JNum) :=
  if jLt index (.num 0) || jGe index (.num blogs.length) then (blogs, recentlyDeleted)
  else (blogs.eraseIdx (jsSpliceStart index blogs.length), some (jsElem blogs index, index))

/-- One user-or-timer event against the store. -/
inductive Op where
  | add (now : Int) (fields : AddFields)
  | deleteAt (index : Int)
  | restore
  | expire
deriving DecidableEq, Repr

/-- Apply one event. -/
def applyOp (env : Env) (s : CrudState) : Op → CrudState
  | .add now f => addBlog now f s
  | .deleteAt i => deleteBlog env i s
  | .restore => undoDelete env s
  | .expire => expireStep s

/-- Run a sequence of events. -/
def runOps (env : Env) : List Op → CrudState → CrudState
  | [], s => s
  | op :: rest, s => runOps env rest (applyOp env s op)

/-- All record ids currently owned by the module: those in the store plus
the one in the pending slot (a deleted record keeps its id and can return
via restore). -/
def allIds (s : CrudState) : List Int :=
  s.blogs.map Blog.id ++
    (match s.recentlyDeleted with
     | some rd => [rd.blog.id]
     | none => [])

/-- The clock behaves: along the run, every `add` observes a timestamp that
is not already an id owned by the state it executes in. -/
def freshRun (env : Env) : List Op → CrudState → Bool
  | [], _ => true
  | op :: rest, s =>
    (match op with
     | .add now _ => decide (now ∉ allIds s)
     | _ => true) && freshRun env rest (applyOp env s op)

/-- Sample record for concrete instantiations. -/
def b1 : Blog := { id := 1, title := ['A'], image := [], content := [], detailUrl := [] }

/-- Sample record for concrete instantiations. -/
def b2 : Blog := { id := 2, title := ['B'], image := [], content := [], detailUrl := [] }

/-- Sample record for concrete instantiations. -/
def b3 : Blog := { id := 3, title := ['C'], image := [], content := [], detailUrl := [] }

/-- A quiescent two-record state. -/
def sAB : CrudState :=
  { blogs := [b1, b2], recentlyDeleted := none, stored := none
    undoVisible := false, undoTimeout := false }

/-- A quiescent three-record state. -/
def sABC : CrudState :=
  { blogs := [b1, b2, b3], recentlyDeleted := none, stored := none
    undoVisible := false, undoTimeout := false }

/-- A state whose pending slot carries an original index (5) that exceeds
the current store length (1). -/
def sPend5 : CrudState :=
  { blogs := [b2], recentlyDeleted := some { blog := b1, index := 5 }, stored := none
    undoVisible := false, undoTimeout := false }

/-! Section: Projection facts about the operations -/

theorem showUndo_blogs (env : Env) (s : CrudState) : (showUndo env s).blogs = s.blogs := by
  unfold showUndo; split <;> rfl

theorem showUndo_recentlyDeleted (env : Env) (s : CrudState) :
    (showUndo env s).recentlyDeleted = s.recentlyDeleted := by
  unfold showUndo; split <;> rfl

theorem showUndo_stored (env : Env) (s : CrudState) : (showUndo env s).stored = s.stored := by
  unfold showUndo; split <;> rfl

theorem showUndo_noBox (s : CrudState) : showUndo ⟨false⟩ s = s := rfl

theorem deleteBlog_invalid (env : Env) (index : Int) (s : CrudState)
    (h : index < 0 ∨ (s.blogs.length : Int) ≤ index) : deleteBlog env index s = s := by
  unfold deleteBlog; rw [dif_pos h]

theorem deleteBlog_valid (env : Env) (s : CrudState) (i : Nat) (hi : i < s.blogs.length) :
    deleteBlog env (i : Int) s =
      showUndo env
        { s with
          recentlyDeleted := some { blog := s.blogs.get ⟨i, hi⟩, index := (i : Int) }
          blogs := s.blogs.eraseIdx i
          stored := some (s.blogs.eraseIdx i) } := by
  unfold deleteBlog
  rw [dif_neg (by omega)]
  simp only [Int.toNat_natCast]

theorem deleteBlog_valid_blogs (env : Env) (s : CrudState) (i : Nat)
    (hi : i < s.blogs.length) :
    (deleteBlog env (i : Int) s).blogs = s.blogs.eraseIdx i := by
  rw [deleteBlog_valid env s i hi, showUndo_blogs]

theorem deleteBlog_valid_recentlyDeleted (env : Env) (s : CrudState) (i : Nat)
    (hi : i < s.blogs.length) :
    (deleteBlog env (i : Int) s).recentlyDeleted =
      some { blog := s.blogs.get ⟨i, hi⟩, index := (i : Int) } := by
  rw [deleteBlog_valid env s i hi, showUndo_recentlyDeleted]

theorem undoDelete_none (env : Env) {s : CrudState} (h : s.recentlyDeleted = none) :
    undoDelete env s = s := by
  unfold undoDelete; rw [h]

theorem undoDelete_some (env : Env) {s : CrudState} {rd : Pending}
    (h : s.recentlyDeleted = some rd) :
    undoDelete env s =
      { s with
        blogs := s.blogs.insertIdx (restoreStart rd.index s.blogs.length) rd.blog
        stored := some (s.blogs.insertIdx (restoreStart rd.index s.blogs.length) rd.blog)
        recentlyDeleted := none
        undoVisible := if env.hasUndoBox then false else s.undoVisible
        undoTimeout := false } := by
  unfold undoDelete; rw [h]

theorem undoDelete_some_blogs (env : Env) {s : CrudState} {rd : Pending}
    (h : s.recentlyDeleted = some rd) :
    (undoDelete env s).blogs =
      s.blogs.insertIdx (restoreStart rd.index s.blogs.length) rd.blog := by
  rw [undoDelete_some env h]

theorem undoDelete_some_recentlyDeleted (env : Env) {s : CrudState} {rd : Pending}
    (h : s.recentlyDeleted = some rd) : (undoDelete env s).recentlyDeleted = none := by
  rw [undoDelete_some env h]

/-! Section: The restore insertion position -/

theorem restoreStart_nonneg {index : Int} (len : Nat) (h : 0 ≤ index) :
    restoreStart index len = min index.toNat len := by
  simp only [restoreStart]
  split
  · omega
  · omega

theorem restoreStart_coe (i len : Nat) : restoreStart (i : Int) len = min i len := by
  rw [restoreStart_nonneg len (by omega)]
  omega

/-! Section: List facts -/

theorem insertIdx_get_eraseIdx {α : Type _} (l : List α) (i : Nat) (hi : i < l.length) :
    (l.eraseIdx i).insertIdx i (l.get ⟨i, hi⟩) = l := by
  induction l generalizing i with
  | nil => simp at hi
  | cons x xs ih =>
    cases i with
    | zero => rfl
    | succ n =>
      simp only [List.eraseIdx_cons_succ, List.get_cons_succ, List.insertIdx_succ_cons]
      rw [ih n (by simpa using hi)]

theorem perm_get_cons_eraseIdx {α : Type _} (l : List α) (i : Nat) (hi : i < l.length) :
    List.Perm l (l.get ⟨i, hi⟩ :: l.eraseIdx i) := by
  have h1 : l.take i ++ l.get ⟨i, hi⟩ :: l.drop (i + 1) = l := by
    rw [List.get_eq_getElem, List.getElem_cons_drop, List.take_append_drop]
  have h2 : l.eraseIdx i = l.take i ++ l.drop (i + 1) := List.eraseIdx_eq_take_drop_succ l i
  rw [h2]
  conv_lhs => rw [← h1]
  exact List.perm_middle

theorem insertIdx_perm_cons {α : Type _} (a : α) (l : List α) (n : Nat) (h : n ≤ l.length) :
    List.Perm (l.insertIdx n a) (a :: l) := by
  induction l generalizing n with
  | nil =>
    obtain rfl : n = 0 := by simpa using h
    rfl
  | cons x xs ih =>
    cases n with
    | zero => rfl
    | succ m =>
      rw [List.insertIdx_succ_cons]
      exact ((ih m (by simpa using h)).cons x).trans (List.Perm.swap a x xs)

/-- Delete at a valid index followed immediately by restore brings the store
back, element for element, and clears the pending slot. -/
theorem delete_then_restore (env : Env) (s : CrudState) {i : Nat} (hi : i < s.blogs.length) :
    (undoDelete env (deleteBlog env (i : Int) s)).blogs = s.blogs ∧
    (undoDelete env (deleteBlog env (i : Int) s)).recentlyDeleted = none := by
  have hrd : (deleteBlog env (i : Int) s).recentlyDeleted =
      some { blog := s.blogs.get ⟨i, hi⟩, index := (i : Int) } :=
    deleteBlog_valid_recentlyDeleted env s i hi
  refine ⟨?_, undoDelete_some_recentlyDeleted env hrd⟩
  rw [undoDelete_some_blogs env hrd, deleteBlog_valid_blogs env s i hi]
  have hlen : (s.blogs.eraseIdx i).length = s.blogs.length - 1 :=
    List.length_eraseIdx_of_lt hi
  rw [hlen, restoreStart_coe]
  have hmin : min i (s.blogs.length - 1) = i := by omega
  rw [hmin, insertIdx_get_eraseIdx s.blogs i hi]

/-! Section: Id-uniqueness machinery -/

theorem allIds_none {s : CrudState} (h : s.recentlyDeleted = none) :
    allIds s = s.blogs.map Blog.id := by
  unfold allIds; rw [h]; simp

theorem allIds_some {s : CrudState} {rd : Pending} (h : s.recentlyDeleted = some rd) :
    allIds s = s.blogs.map Blog.id ++ [rd.blog.id] := by
  unfold allIds; rw [h]

theorem nodup_store_of_allIds {s : CrudState} (h : (allIds s).Nodup) :
    (s.blogs.map Blog.id).Nodup := by
  unfold allIds at h
  exact h.of_append_left

theorem allIds_nodup_addBlog {s : CrudState} (now : Int) (f : AddFields)
    (h : (allIds s).Nodup) (hfresh : now ∉ allIds s) :
    (allIds (addBlog now f s)).Nodup := by
  have heq : allIds (addBlog now f s) = now :: allIds s := by
    unfold allIds addBlog
    cases s.recentlyDeleted <;> simp
  rw [heq]
  exact List.Nodup.cons hfresh h

theorem allIds_nodup_deleteBlog (env : Env) (index : Int) {s : CrudState}
    (h : (allIds s).Nodup) : (allIds (deleteBlog env index s)).Nodup := by
  by_cases hg : index < 0 ∨ (s.blogs.length : Int) ≤ index
  · rw [deleteBlog_invalid env index s hg]; exact h
  · push_neg at hg
    obtain ⟨n, rfl⟩ : ∃ n : Nat, index = (n : Int) := ⟨index.toNat, by omega⟩
    have hi : n < s.blogs.length := by omega
    have hall : allIds (deleteBlog env (n : Int) s) =
        (s.blogs.eraseIdx n).map Blog.id ++ [(s.blogs.get ⟨n, hi⟩).id] := by
      unfold allIds
      rw [deleteBlog_valid_blogs env s n hi, deleteBlog_valid_recentlyDeleted env s n hi]
    rw [hall]
    have hstore : (s.blogs.map Blog.id).Nodup := nodup_store_of_allIds h
    have hperm := (perm_get_cons_eraseIdx s.blogs n hi).map Blog.id
    simp only [List.map_cons] at hperm
    have hcons : ((s.blogs.get ⟨n, hi⟩).id :: (s.blogs.eraseIdx n).map Blog.id).Nodup :=
      hperm.nodup hstore
    exact (List.perm_append_singleton _ _).symm.nodup hcons

theorem allIds_nodup_undoDelete (env : Env) {s : CrudState}
    (h : (allIds s).Nodup) : (allIds (undoDelete env s)).Nodup := by
  cases hrd : s.recentlyDeleted with
  | none => rw [undoDelete_none env hrd]; exact h
  | some rd =>
    have hall : allIds (undoDelete env s) =
        (s.blogs.insertIdx (restoreStart rd.index s.blogs.length) rd.blog).map Blog.id := by
      unfold allIds
      rw [undoDelete_some_blogs env hrd, undoDelete_some_recentlyDeleted env hrd]
      simp
    rw [hall]
    have hstart : restoreStart rd.index s.blogs.length ≤ s.blogs.length := by
      simp only [restoreStart]
      split <;> omega
    have hperm := (insertIdx_perm_cons rd.blog s.blogs _ hstart).map Blog.id
    simp only [List.map_cons] at hperm
    rw [allIds_some hrd] at h
    have hcons : (rd.blog.id :: s.blogs.map Blog.id).Nodup :=
      (List.perm_append_singleton _ _).nodup h
    exact hperm.symm.nodup hcons

theorem allIds_nodup_expireStep {s : CrudState}
    (h : (allIds s).Nodup) : (allIds (expireStep s)).Nodup := by
  unfold expireStep
  split
  · have heq : allIds
        { s with undoVisible := false, recentlyDeleted := none, undoTimeout := false } =
        s.blogs.map Blog.id := by
      unfold allIds; simp
    rw [heq]
    exact nodup_store_of_allIds h
  · exact h

theorem allIds_nodup_runOps (env : Env) : ∀ (ops : List Op) (s : CrudState),
    (allIds s).Nodup → freshRun env ops s = true →
    (allIds (runOps env ops s)).Nodup := by
  intro ops
  induction ops with
  | nil => intro s h _; exact h
  | cons op rest ih =>
    intro s h hf
    unfold freshRun at hf
    rw [Bool.and_eq_true] at hf
    obtain ⟨h1, h2⟩ := hf
    refine ih (applyOp env s op) ?_ h2
    cases op with
    | add now f =>
      exact allIds_nodup_addBlog now f h (of_decide_eq_true h1)
    | deleteAt i => exact allIds_nodup_deleteBlog env i h
    | restore => exact allIds_nodup_undoDelete env h
    | expire => exact allIds_nodup_expireStep h

theorem extractCards_id_mem (now : Int) : ∀ (k : Nat) (cards : List Card) (x : Int),
    x ∈ (extractCards now k cards).map Blog.id → ∃ j : Nat, x = now + ((k + j : Nat) : Int) := by
  intro k cards
  induction cards generalizing k with
  | nil => intro x hx; simp [extractCards] at hx
  | cons c cs ih =>
    intro x hx
    simp only [extractCards, List.map_cons, List.mem_cons] at hx
    rcases hx with h | h
    · refine ⟨0, ?_⟩
      simp only [extractCard] at h
      omega
    · obtain ⟨j, hj⟩ := ih (k + 1) x h
      exact ⟨j + 1, by omega⟩

theorem extractCards_ids_nodup (now : Int) : ∀ (k : Nat) (cards : List Card),
    ((extractCards now k cards).map Blog.id).Nodup := by
  intro k cards
  induction cards generalizing k with
  | nil => simp [extractCards]
  | cons c cs ih =>
    simp only [extractCards, List.map_cons]
    refine List.Nodup.cons ?_ (ih (k + 1))
    intro hmem
    obtain ⟨j, hj⟩ := extractCards_id_mem now (k + 1) cs _ hmem
    simp only [extractCard] at hj
    omega

theorem extractBranch_nodup (now : Int) (stored : Option (List Blog))
    (container : Option (List Card)) :
    ((extractBranch now stored container).1.map Blog.id).Nodup := by
  unfold extractBranch
  rcases container with _ | (_ | ⟨c, cs⟩)
  · simp
  · simp
  · exact extractCards_ids_nodup now 0 (c :: cs)

theorem initState_allIds_nodup (now : Int) (stored : Option (List Blog))
    (container : Option (List Card))
    (hs : ∀ l, stored = some l → (l.map Blog.id).Nodup) :
    (allIds (initState now stored container)).Nodup := by
  have hpend : (initState now stored container).recentlyDeleted = none := rfl
  rw [allIds_none hpend]
  show ((initializeFromDOM now stored container).1.map Blog.id).Nodup
  rcases stored with _ | l
  · exact extractBranch_nodup now none container
  · by_cases h0 : 0 < l.length
    · simp only [initializeFromDOM, if_pos h0]
      exact hs l rfl
    · simp only [initializeFromDOM, if_neg h0]
      exact extractBranch_nodup now (some l) container

/-! Section: Escaping -/

theorem replaceAllChar_eq (c : Char) (rep : Str) :
    ∀ s : Str, replaceAllChar c rep s = concatMapStr (fun x => if x = c then rep else [x]) s := by
  intro s
  induction s with
  | nil => rfl
  | cons x xs ih => simp [replaceAllChar, concatMapStr, ih]

theorem concatMapStr_append (f : Char → Str) (a b : Str) :
    concatMapStr f (a ++ b) = concatMapStr f a ++ concatMapStr f b := by
  induction a with
  | nil => rfl
  | cons x xs ih => simp [concatMapStr, ih]

theorem concatMapStr_comp (f g : Char → Str) (s : Str) :
    concatMapStr g (concatMapStr f s) = concatMapStr (fun c => concatMapStr g (f c)) s := by
  induction s with
  | nil => rfl
  | cons x xs ih => simp [concatMapStr, concatMapStr_append, ih]

theorem concatMapStr_congr {f g : Char → Str} (h : ∀ c, f c = g c) :
    ∀ s, concatMapStr f s = concatMapStr g s := by
  intro s
  induction s with
  | nil => rfl
  | cons x xs ih => simp [concatMapStr, h, ih]

theorem escapeHtml_eq_concatMap (s : Str) : escapeHtml s = concatMapStr escChar s := by
  cases s with
  | nil => rfl
  | cons c cs =>
    unfold escapeHtml
    rw [if_neg (by simp)]
    rw [replaceAllChar_eq, replaceAllChar_eq, replaceAllChar_eq, replaceAllChar_eq,
      concatMapStr_comp, concatMapStr_comp, concatMapStr_comp]
    refine concatMapStr_congr ?_ (c :: cs)
    intro x
    by_cases h1 : x = '&'
    · subst h1; decide
    · by_cases h2 : x = '"'
      · subst h2; decide
      · by_cases h3 : x = '<'
        · subst h3; decide
        · by_cases h4 : x = '>'
          · subst h4; decide
          · simp [concatMapStr, escChar, h1, h2, h3, h4]

theorem escChar_no_lt (c : Char) : '<' ∉ escChar c := by
  unfold escChar
  split_ifs with h1 h2 h3 h4
  · decide
  · decide
  · decide
  · decide
  · intro hmem
    rw [List.mem_singleton] at hmem
    exact h3 hmem.symm

theorem escChar_no_gt (c : Char) : '>' ∉ escChar c := by
  unfold escChar
  split_ifs with h1 h2 h3 h4
  · decide
  · decide
  · decide
  · decide
  · intro hmem
    rw [List.mem_singleton] at hmem
    exact h4 hmem.symm

theorem escChar_no_quot (c : Char) : '"' ∉ escChar c := by
  unfold escChar
  split_ifs with h1 h2 h3 h4
  · decide
  · decide
  · decide
  · decide
  · intro hmem
    rw [List.mem_singleton] at hmem
    exact h2 hmem.symm

theorem concatMapStr_not_mem {x : Char} {f : Char → Str} (hf : ∀ c, x ∉ f c) :
    ∀ s, x ∉ concatMapStr f s := by
  intro s
  induction s with
  | nil => simp [concatMapStr]
  | cons c cs ih =>
    simp only [concatMapStr, List.mem_append]
    rintro (h | h)
    · exact hf c h
    · exact ih h

theorem ampsOk_escChar_append (c : Char) (t : Str) : ampsOk (escChar c ++ t) = ampsOk t := by
  unfold escChar
  split_ifs with h1 h2 h3 h4
  · rfl
  · rfl
  · rfl
  · rfl
  · show ampsOk (c :: t) = ampsOk t
    simp only [ampsOk]
    rw [if_neg h1]

theorem ampsOk_concatMap (s : Str) : ampsOk (concatMapStr escChar s) = true := by
  induction s with
  | nil => rfl
  | cons c cs ih =>
    show ampsOk (escChar c ++ concatMapStr escChar cs) = true
    rw [ampsOk_escChar_append, ih]

theorem get_not_mem_eraseIdx {l : List Blog} (hN : (l.map Blog.id).Nodup)
    (i : Nat) (hi : i < l.length) : l.get ⟨i, hi⟩ ∉ l.eraseIdx i := by
  have hperm := (perm_get_cons_eraseIdx l i hi).map Blog.id
  simp only [List.map_cons] at hperm
  have hcons := hperm.nodup hN
  rw [List.nodup_cons] at hcons
  intro hmem
  exact hcons.1 (List.mem_map_of_mem Blog.id hmem)

/-! Section: The claims -/

/-- Claim C1, behaviour of the code at the failing input: with an
explicitly persisted empty list under the storage key and a container now
holding one `.blog-card`, `initializeFromDOM` does not use the persisted
empty list — the guard on line 26 demands `stored.length > 0`, so startup
falls through to the extraction branch, re-scans the container and
extracts the card. -/
theorem C1_persisted_empty_list_reextracted :
    (initializeFromDOM 100 (some [])
        (some [{ img := none, heading := none, para := none, anchors := [] }])).1
      = [extractCard 100 0 { img := none, heading := none, para := none, anchors := [] }] ∧
    (initializeFromDOM 100 (some [])
        (some [{ img := none, heading := none, para := none, anchors := [] }])).1
      ≠ ([] : List Blog) := by
  exact ⟨rfl, by decide⟩

/-- Claim C2, counterexample: starting from the seeded empty store, two add
operations within the same clock millisecond (both observing
`Date.now() = 5`) leave the store with two records carrying the same id,
violating the uniqueness invariant. -/
theorem C2_same_millisecond_duplicate_ids :
    ¬ ((runOps ⟨true⟩
          [Op.add 5 ⟨none, none, none, none⟩, Op.add 5 ⟨none, none, none, none⟩]
          (initState 0 none none)).blogs.map Blog.id).Nodup := by
  decide

/-- Claim C2 (amended): for every sequence of seeding, add, deleteAt,
restore and expiry operations, no two records in the store carry the same
id after any operation — provided every add observes a fresh timestamp
(one that is not already an id owned by the state it executes in, which
fails exactly in the same-millisecond case of the counterexample) and a
list hydrated from storage at seed time satisfies the invariant;
within one extraction pass the positional offset makes seeded ids
distinct unconditionally. -/
theorem C2_unique_ids_of_fresh_clock (env : Env) (now : Int)
    (stored : Option (List Blog)) (container : Option (List Card)) (ops : List Op)
    (hs : ∀ l, stored = some l → (l.map Blog.id).Nodup)
    (hf : freshRun env ops (initState now stored container) = true) :
    ((runOps env ops (initState now stored container)).blogs.map Blog.id).Nodup :=
  nodup_store_of_allIds
    (allIds_nodup_runOps env ops (initState now stored container)
      (initState_allIds_nodup now stored container hs) hf)

theorem C2_unique_ids_of_fresh_clock_witness :
    ((runOps ⟨true⟩
        [Op.add 5 ⟨none, none, none, none⟩, Op.deleteAt 0, Op.restore,
          Op.add 7 ⟨none, none, none, none⟩]
        (initState 0 none none)).blogs.map Blog.id).Nodup :=
  C2_unique_ids_of_fresh_clock ⟨true⟩ 0 none none
    [Op.add 5 ⟨none, none, none, none⟩, Op.deleteAt 0, Op.restore,
      Op.add 7 ⟨none, none, none, none⟩]
    (fun _ h => nomatch h) (by decide)

/-- Claim C3: for every store with no pending deletion and every index with
0 ≤ index ≤ length, calling restore() immediately after a single
deleteAt(index) yields a store equal to the pre-delete store, element for
element and in the same order (the deleted record returns to its original
position), and leaves no pending slot. -/
theorem C3_delete_restore_roundtrip (env : Env) (s : CrudState) (i : Nat)
    (hrd : s.recentlyDeleted = none) (hi : i ≤ s.blogs.length) :
    (undoDelete env (deleteBlog env (i : Int) s)).blogs = s.blogs ∧
    (undoDelete env (deleteBlog env (i : Int) s)).recentlyDeleted = none := by
  rcases Nat.lt_or_ge i s.blogs.length with hlt | hge
  · exact delete_then_restore env s hlt
  · have hdel : deleteBlog env (i : Int) s = s :=
      deleteBlog_invalid env (i : Int) s (Or.inr (by omega))
    rw [hdel, undoDelete_none env hrd]
    exact ⟨rfl, hrd⟩

theorem C3_delete_restore_roundtrip_witness :
    (undoDelete ⟨true⟩ (deleteBlog ⟨true⟩ (0 : Int) sAB)).blogs = [b1, b2] ∧
    (undoDelete ⟨true⟩ (deleteBlog ⟨true⟩ (0 : Int) sAB)).recentlyDeleted = none :=
  C3_delete_restore_roundtrip ⟨true⟩ sAB 0 rfl (by decide)

/-- Claim C4: whenever a pending-deletion slot ⟨record, originalIndex⟩
exists (with the nonnegative index a real delete stores), restore()
reinserts the captured record at position min(originalIndex,
currentLength) — so an original index exceeding the current length appends
at the end rather than out of bounds — and clears the pending slot; when
no pending slot exists, restore() is a no-op. -/
theorem C4_restore_position (env : Env) (s : CrudState) :
    (∀ rd : Pending, s.recentlyDeleted = some rd → 0 ≤ rd.index →
      (undoDelete env s).blogs =
        s.blogs.insertIdx (min rd.index.toNat s.blogs.length) rd.blog ∧
      (undoDelete env s).recentlyDeleted = none) ∧
    (s.recentlyDeleted = none → undoDelete env s = s) := by
  constructor
  · intro rd hrd hpos
    rw [undoDelete_some_blogs env hrd, restoreStart_nonneg _ hpos]
    exact ⟨rfl, undoDelete_some_recentlyDeleted env hrd⟩
  · intro h
    exact undoDelete_none env h

theorem C4_restore_position_witness :
    (undoDelete ⟨true⟩ sPend5).blogs = [b2, b1] ∧
    (undoDelete ⟨true⟩ sPend5).recentlyDeleted = none ∧
    undoDelete ⟨true⟩ sAB = sAB := by
  have h := (C4_restore_position ⟨true⟩ sPend5).1 { blog := b1, index := 5 } rfl (by decide)
  refine ⟨?_, h.2, (C4_restore_position ⟨true⟩ sAB).2 rfl⟩
  rw [h.1]
  rfl

/-- Claim C5: for every store satisfying the id-uniqueness data-model
invariant and every pair of valid indices, two consecutive deleteAt calls
without an intervening restore leave only the second deleted record in the
pending slot; a subsequent restore() reinserts exactly the second deleted
record, and the first deleted record is in neither the store nor the
pending slot afterwards. -/
theorem C5_second_delete_overwrites (env : Env) (s : CrudState) (i j : Nat)
    (hN : (s.blogs.map Blog.id).Nodup)
    (hi : i < s.blogs.length)
    (hj : j + 1 < s.blogs.length) :
    ∃ second : Blog,
      (deleteBlog env (i : Int) s).blogs[j]? = some second ∧
      (deleteBlog env (j : Int) (deleteBlog env (i : Int) s)).recentlyDeleted =
        some { blog := second, index := (j : Int) } ∧
      second ≠ s.blogs.get ⟨i, hi⟩ ∧
      (undoDelete env (deleteBlog env (j : Int) (deleteBlog env (i : Int) s))).blogs =
        (deleteBlog env (i : Int) s).blogs ∧
      s.blogs.get ⟨i, hi⟩ ∉
        (undoDelete env (deleteBlog env (j : Int) (deleteBlog env (i : Int) s))).blogs ∧
      (undoDelete env (deleteBlog env (j : Int) (deleteBlog env (i : Int) s))).recentlyDeleted
        = none := by
  have hb1 : (deleteBlog env (i : Int) s).blogs = s.blogs.eraseIdx i :=
    deleteBlog_valid_blogs env s i hi
  have hlen1 : (deleteBlog env (i : Int) s).blogs.length = s.blogs.length - 1 := by
    rw [hb1]
    exact List.length_eraseIdx_of_lt hi
  have hj1 : j < (deleteBlog env (i : Int) s).blogs.length := by omega
  have hfirst : s.blogs.get ⟨i, hi⟩ ∉ (deleteBlog env (i : Int) s).blogs := by
    rw [hb1]
    exact get_not_mem_eraseIdx hN i hi
  refine ⟨(deleteBlog env (i : Int) s).blogs.get ⟨j, hj1⟩, ?_, ?_, ?_, ?_, ?_, ?_⟩
  · simp [List.getElem?_eq_getElem hj1]
  · exact deleteBlog_valid_recentlyDeleted env (deleteBlog env (i : Int) s) j hj1
  · intro heq
    exact hfirst (heq ▸ List.get_mem (deleteBlog env (i : Int) s).blogs j hj1)
  · exact (delete_then_restore env (deleteBlog env (i : Int) s) hj1).1
  · rw [(delete_then_restore env (deleteBlog env (i : Int) s) hj1).1]
    exact hfirst
  · exact (delete_then_restore env (deleteBlog env (i : Int) s) hj1).2

theorem C5_second_delete_overwrites_witness :
    ∃ second : Blog,
      (deleteBlog ⟨true⟩ (0 : Int) sABC).blogs[0]? = some second ∧
      (deleteBlog ⟨true⟩ (0 : Int) (deleteBlog ⟨true⟩ (0 : Int) sABC)).recentlyDeleted =
        some { blog := second, index := (0 : Int) } ∧
      second ≠ sABC.blogs.get ⟨0, by decide⟩ ∧
      (undoDelete ⟨true⟩
          (deleteBlog ⟨true⟩ (0 : Int) (deleteBlog ⟨true⟩ (0 : Int) sABC))).blogs =
        (deleteBlog ⟨true⟩ (0 : Int) sABC).blogs ∧
      sABC.blogs.get ⟨0, by decide⟩ ∉
        (undoDelete ⟨true⟩
          (deleteBlog ⟨true⟩ (0 : Int) (deleteBlog ⟨true⟩ (0 : Int) sABC))).blogs ∧
      (undoDelete ⟨true⟩
          (deleteBlog ⟨true⟩ (0 : Int)
            (deleteBlog ⟨true⟩ (0 : Int) sABC))).recentlyDeleted = none :=
  C5_second_delete_overwrites ⟨true⟩ sABC 0 0 (by decide) (by decide) (by decide)

/-- Claim C6: for every store and every index with 0 ≤ index < length,
deleteAt(index) reduces the store length by exactly 1, and the removed
record equals the record held in the pending-deletion slot together with
its original index. -/
theorem C6_delete_shrinks_and_captures (env : Env) (s : CrudState) (i : Nat)
    (hi : i < s.blogs.length) :
    (deleteBlog env (i : Int) s).blogs.length = s.blogs.length - 1 ∧
    (deleteBlog env (i : Int) s).recentlyDeleted =
      some { blog := s.blogs.get ⟨i, hi⟩, index := (i : Int) } := by
  constructor
  · rw [deleteBlog_valid_blogs env s i hi]
    exact List.length_eraseIdx_of_lt hi
  · exact deleteBlog_valid_recentlyDeleted env s i hi

theorem C6_delete_shrinks_and_captures_witness :
    (deleteBlog ⟨true⟩ (0 : Int) sAB).blogs.length = 1 ∧
    (deleteBlog ⟨true⟩ (0 : Int) sAB).recentlyDeleted =
      some { blog := b1, index := (0 : Int) } :=
  C6_delete_shrinks_and_captures ⟨true⟩ sAB 0 (by decide)

/-- Claim C7: for every store and every integer index outside [0, length),
deleteAt(index) does nothing: the store, the persisted state, the pending
slot (the whole state) are unchanged, and totality of the embedding
reflects that nothing is thrown. -/
theorem C7_delete_out_of_range_noop (env : Env) (s : CrudState) (index : Int)
    (h : index < 0 ∨ (s.blogs.length : Int) ≤ index) :
    deleteBlog env index s = s :=
  deleteBlog_invalid env index s h

theorem C7_delete_out_of_range_noop_witness :
    deleteBlog ⟨true⟩ (-1 : Int) sAB = sAB ∧ deleteBlog ⟨true⟩ (2 : Int) sAB = sAB :=
  ⟨C7_delete_out_of_range_noop ⟨true⟩ sAB (-1) (Or.inl (by decide)),
    C7_delete_out_of_range_noop ⟨true⟩ sAB 2 (Or.inr (by decide))⟩

/-- Claim C8: escapeHtml applied to any string yields output containing no
raw less-than, greater-than or double-quote character, and every ampersand
in the output occurs only as the start of one of the emitted entities
(amp, quot, lt, gt) — so interpolated text rendered through it never
carries those characters unescaped. -/
theorem C8_escapeHtml_escapes (s : Str) :
    '<' ∉ escapeHtml s ∧ '>' ∉ escapeHtml s ∧ '"' ∉ escapeHtml s ∧
      ampsOk (escapeHtml s) = true := by
  rw [escapeHtml_eq_concatMap]
  exact ⟨concatMapStr_not_mem escChar_no_lt s, concatMapStr_not_mem escChar_no_gt s,
    concatMapStr_not_mem escChar_no_quot s, ampsOk_concatMap s⟩

/-- Claim C9: deleteBlog called with a NaN index is not a no-op: both
NaN < 0 and NaN >= length are false so the range guard passes, splice
coerces NaN to start 0 and removes the first record, and the pending slot
captures an undefined record with index NaN. -/
theorem C9_nan_delete_removes_head (b : Blog) (bs : List Blog)
    (p : Option (Option Blog × JNum)) :
    jLt JNum.nan (JNum.num 0) = false ∧
    jGe JNum.nan (JNum.num ((b :: bs).length : Int)) = false ∧
    deleteBlogNum JNum.nan (b :: bs) p = (bs, some (none, JNum.nan)) :=
  ⟨rfl, rfl, rfl⟩

/-- Claim C10: when the undo-message element is absent at deletion time,
showUndo returns before arming the expiry timer, so (no timer having been
armed before) the pending slot is never cleared by expiry — any number of
timer-firing attempts leave the state fixed — and the deleted record
remains restorable: a later restore() still brings the store back. -/
theorem C10_no_box_pending_never_expires (s : CrudState) (i : Nat)
    (hi : i < s.blogs.length) (ht : s.undoTimeout = false) :
    (deleteBlog ⟨false⟩ (i : Int) s).undoTimeout = false ∧
    (deleteBlog ⟨false⟩ (i : Int) s).recentlyDeleted =
      some { blog := s.blogs.get ⟨i, hi⟩, index := (i : Int) } ∧
    (∀ n : Nat, expireStep^[n] (deleteBlog ⟨false⟩ (i : Int) s) =
      deleteBlog ⟨false⟩ (i : Int) s) ∧
    (undoDelete ⟨false⟩ (deleteBlog ⟨false⟩ (i : Int) s)).blogs = s.blogs := by
  have hdel := deleteBlog_valid ⟨false⟩ s i hi
  rw [showUndo_noBox] at hdel
  have hT : (deleteBlog ⟨false⟩ (i : Int) s).undoTimeout = false := by
    rw [hdel]
    exact ht
  have hfix : expireStep (deleteBlog ⟨false⟩ (i : Int) s) =
      deleteBlog ⟨false⟩ (i : Int) s := by
    simp [expireStep, hT]
  refine ⟨hT, deleteBlog_valid_recentlyDeleted ⟨false⟩ s i hi, ?_,
    (delete_then_restore ⟨false⟩ s hi).1⟩
  intro n
  induction n with
  | zero => rfl
  | succ m ihm => rw [Function.iterate_succ_apply', ihm, hfix]

theorem C10_no_box_pending_never_expires_witness :
    (deleteBlog ⟨false⟩ (0 : Int) sAB).undoTimeout = false ∧
    (deleteBlog ⟨false⟩ (0 : Int) sAB).recentlyDeleted =
      some { blog := b1, index := (0 : Int) } ∧
    (∀ n : Nat, expireStep^[n] (deleteBlog ⟨false⟩ (0 : Int) sAB) =
      deleteBlog ⟨false⟩ (0 : Int) sAB) ∧
    (undoDelete ⟨false⟩ (deleteBlog ⟨false⟩ (0 : Int) sAB)).blogs = [b1, b2] :=
  C10_no_box_pending_never_expires sAB 0 (by decide) rfl

end BlogCrud
